import Mathlib

/-!
Shallow embedding of the FluentLeap backend (main.py, db_utils.py,
llm_utils.py) and proofs about its daily-content selection, data
normalization and persistence logic.
-/

namespace FluentLeap

/-- A string-keyed, string-valued mapping as an association list; models the
Python dicts held in the `word_data` field of a challenge record. -/
abbrev Dict := List (String × String)

/-- Python `d[k]` / `k in d`: the first binding of key `k`, if any. -/
def dictGet (d : Dict) (k : String) : Option String :=
  (d.find? (fun p => p.1 == k)).map Prod.snd

/-- Python `d.get(k, v)`: the binding of `k`, or the default `v`. -/
def dictGetD (d : Dict) (k v : String) : String :=
  (dictGet d k).getD v

/-- One raw element of a persisted `word_data` list as seen by
`_format_word_data` (main.py lines 101-112): a positional list/tuple of
scalar fields, a keyed dict, or any other shape. -/
inductive RawItem
  | seq (fields : List String)
  | keyed (d : Dict)
  | other
  deriving DecidableEq

/-- The positional branch of `_format_word_data` (main.py lines 103-110):
positions 0..5 become the six canonical keys, missing positions default
to the empty string. -/
def seqToDict (f : List String) : Dict :=
  [("word", f.getD 0 ""), ("ipa", f.getD 1 ""), ("meaning", f.getD 2 ""),
   ("synonyms", f.getD 3 ""), ("antonyms", f.getD 4 ""), ("sentence", f.getD 5 "")]

/-- `_format_word_data` (main.py lines 93-113): sequences of length at least 6
are mapped to keyed dicts, dicts pass through unchanged, anything else is
silently dropped. -/
def format_word_data (l : List RawItem) : List Dict :=
  l.filterMap (fun item =>
    match item with
    | RawItem.seq f => if 6 ≤ f.length then some (seqToDict f) else none
    | RawItem.keyed d => some d
    | RawItem.other => none)

/-- `WORDS_PER_DAY` (main.py line 21). -/
def WORDS_PER_DAY : Nat := 5

/-- main.py line 142: `unused = list(set(all_words) - set(all_used_words))`,
the de-duplicated elements of the source list absent from the used set. -/
def unusedOf (allWords usedWords : List String) : List String :=
  (allWords.filter (fun w => decide (w ∉ usedWords))).dedup

/-- The contract of Python `random.sample(l, k)` for `k ≤ len(l)`: the result
has `k` elements drawn from `k` distinct positions of `l` (so it is a
sub-permutation of `l`). -/
structure SampleOK (sample : List String → Nat → List String) : Prop where
  len : ∀ l k, k ≤ l.length → (sample l k).length = k
  subperm : ∀ l k, k ≤ l.length → List.Subperm (sample l k) l

/-- The word-selection branches of `get_today_challenge` (main.py lines
141-151), with `random.sample` abstracted as the `sample` argument.  The
Bool records whether a degraded branch (the `elif` short batch or the
`else` reset) was taken, which the code signals by the short batch or the
printed warning. -/
def selectDailyWords (sample : List String → Nat → List String)
    (allWords usedWords : List String) : List String × Bool :=
  let unused := unusedOf allWords usedWords
  if WORDS_PER_DAY ≤ unused.length then
    (sample unused WORDS_PER_DAY, false)
  else if 0 < unused.length ∧ unused.length < WORDS_PER_DAY then
    (sample unused unused.length, true)
  else
    (sample allWords WORDS_PER_DAY, true)

/-- The fallback entry of `get_llm_vocab_batch` (llm_utils.py line 105),
one six-field tuple per requested word. -/
def vocabPlaceholder (w : String) : List String :=
  [w, "N/A", "Error loading data from AI.", "N/A", "N/A", "N/A"]

/-- llm_utils.py lines 86-93: one six-field tuple built from one item of the
parsed response, each field via `item.get(key, "")`. -/
def tupleOfItem (item : Dict) : List String :=
  [dictGetD item "word" "", dictGetD item "ipa" "", dictGetD item "meaning" "",
   dictGetD item "synonyms" "", dictGetD item "antonyms" "", dictGetD item "sentence" ""]

/-- `get_llm_vocab_batch` (llm_utils.py lines 50-106).  The external model
call plus JSON parsing are abstracted as `gen`: `Except.error` when that
region throws, `Except.ok wordList` when it yields the parsed `"word_data"`
list.  An empty result raises inside the same `try`, so it also falls back
to one placeholder per requested word. -/
def get_llm_vocab_batch (gen : Except String (List Dict)) (words : List String) :
    List (List String) :=
  match gen with
  | Except.error _ => words.map vocabPlaceholder
  | Except.ok wordList =>
    let results := wordList.map tupleOfItem
    if results.isEmpty then words.map vocabPlaceholder else results

/-- A Firestore challenge document, with the six fields written by
`save_challenge` (db_utils.py lines 78-85).  `word_data` is kept in raw
shape, since legacy documents may hold positional encodings. -/
structure Challenge where
  date : String
  words : List String
  word_data : List RawItem
  story : String
  feedback : String
  story_image_url : String
  deriving DecidableEq

/-- A Firestore collection keyed by document id. -/
abbrev Coll (α : Type) := List (String × α)

/-- `doc_ref.get()` on a collection: the document at id `d`, if present. -/
def lookupDoc {α : Type} (st : Coll α) (d : String) : Option α :=
  (st.find? (fun p => p.1 == d)).map Prod.snd

/-- `doc_ref.set(v)` on a collection: whole-document replace at id `d`
(creates the document when absent). -/
def setDoc {α : Type} (st : Coll α) (d : String) (v : α) : Coll α :=
  st.filter (fun p => p.1 != d) ++ [(d, v)]

/-- The `challenges` collection. -/
abbrev Store := Coll Challenge

/-- `get_challenge_for_date` (db_utils.py lines 47-60). -/
def get_challenge_for_date (st : Store) (d : String) : Option Challenge :=
  lookupDoc st d

/-- `save_challenge` (db_utils.py lines 62-88): builds the six-field document
and `set`s it at the date id.  The `word_data` argument is a list of dicts,
as in the Python type hint, stored as keyed raw items. -/
def save_challenge (st : Store) (date : String) (words : List String)
    (word_data : List Dict) (story feedback story_image_url : String) : Store :=
  setDoc st date
    ⟨date, words, word_data.map RawItem.keyed, story, feedback, story_image_url⟩

/-- `get_all_used_words` (db_utils.py lines 91-106): the words of every
stored challenge (as a list; only membership is ever consulted). -/
def get_all_used_words (st : Store) : List String :=
  st.foldr (fun p acc => p.2.words ++ acc) []

/-- `get_all_challenges` (db_utils.py lines 108-122): all challenge
documents ordered by date descending. -/
def get_all_challenges (st : Store) : List Challenge :=
  (List.mergeSort st (fun a b => (compare b.1 a.1).isLE)).map Prod.snd

/-- The `ChallengeResponse` pydantic model (main.py lines 62-68): what the
`/api/today` endpoint returns, with `word_data` in canonical keyed form. -/
structure ChallengeResponse where
  date : String
  words : List String
  word_data : List Dict
  story : String
  feedback : String
  story_image_url : String
  deriving DecidableEq

/-- `get_today_challenge` (main.py lines 118-176): read the record for the
date and re-format its `word_data`, or select words, generate their data,
save and return the new record.  `sample` abstracts `random.sample`, `gen`
the generation call, `allWords` the words file; the result pairs the
response (`none` for the no-words 500) with the resulting store. -/
def get_today_challenge (sample : List String → Nat → List String)
    (gen : Except String (List Dict)) (allWords : List String)
    (st : Store) (today : String) : Option ChallengeResponse × Store :=
  match get_challenge_for_date st today with
  | some r =>
    (some ⟨r.date, r.words, format_word_data r.word_data,
           r.story, r.feedback, r.story_image_url⟩, st)
  | none =>
    let usedWords := get_all_used_words st
    let todaysWords := (selectDailyWords sample allWords usedWords).1
    if todaysWords.isEmpty then (none, st)
    else
      let tuples := get_llm_vocab_batch gen todaysWords
      let formatted := format_word_data (tuples.map RawItem.seq)
      (some ⟨today, todaysWords, formatted, "", "", ""⟩,
       save_challenge st today todaysWords formatted "" "" "")

/-- The concatenation built by `get_review_words` (main.py lines 263-266):
the formatted `word_data` of every stored challenge, in history order. -/
def reviewSource (st : Store) : List Dict :=
  (get_all_challenges st).foldr (fun c acc => format_word_data c.word_data ++ acc) []

/-- The de-duplication loop of `get_review_words` (main.py lines 268-274):
keep the first entry per `word`, skipping entries whose word was seen.
The unguarded `data["word"]` lookup is a `KeyError` when the key is
missing, modelled as `none`. -/
def dedupeByWord : List Dict → List String → Option (List Dict)
  | [], _ => some []
  | d :: rest, seen =>
    match dictGet d "word" with
    | none => none
    | some w =>
      if w ∈ seen then dedupeByWord rest seen
      else (dedupeByWord rest (w :: seen)).map (fun out => d :: out)

/-- `get_review_words` (main.py lines 260-277): concatenate, de-duplicate by
word keeping the first entry, then shuffle.  `random.shuffle` is abstracted
as the `shuffle` argument; `none` models the unhandled `KeyError`. -/
def get_review_words (shuffle : List Dict → List Dict) (st : Store) :
    Option (List Dict) :=
  (dedupeByWord (reviewSource st) []).map shuffle

/-- A value inside an idiom entry: a scalar string or a list of strings
(the `sentences` field). -/
inductive IVal
  | s (v : String)
  | ls (v : List String)
  deriving DecidableEq

/-- An idiom entry: a string-keyed mapping of idiom values. -/
abbrev IDict := List (String × IVal)

/-- Python `idiom.get(k)` on an idiom entry. -/
def idictGet (d : IDict) (k : String) : Option IVal :=
  (d.find? (fun p => p.1 == k)).map Prod.snd

/-- Python `idiom.get(k, v)` on an idiom entry. -/
def idictGetD (d : IDict) (k : String) (v : IVal) : IVal :=
  (idictGet d k).getD v

/-- `_clean_idiom_list` on one entry (db_utils.py lines 181-191):
guarantees the eight fields with their documented defaults. -/
def clean_idiom (idiom : IDict) : IDict :=
  [("word", idictGetD idiom "word" (IVal.s "Error")),
   ("ipa", idictGetD idiom "ipa" (IVal.s "N/A")),
   ("meaning", idictGetD idiom "meaning" (IVal.s "Error loading")),
   ("synonyms", idictGetD idiom "synonyms" (IVal.s "N/A")),
   ("antonyms", idictGetD idiom "antonyms" (IVal.s "N/A")),
   ("collocations", idictGetD idiom "collocations" (IVal.s "N/A")),
   ("sentences", idictGetD idiom "sentences" (IVal.ls [])),
   ("forms", idictGetD idiom "forms" (IVal.s "N/A"))]

/-- `_clean_idiom_list` (db_utils.py lines 178-192). -/
def clean_idiom_list (raw : List IDict) : List IDict :=
  raw.map clean_idiom

/-- The `daily_idioms` collection: each document holds its `idioms` list. -/
abbrev IStore := Coll (List IDict)

/-- `get_or_create_daily_idioms` (db_utils.py lines 164-220).  The fallible
region inside the `try` is abstracted: `gen` is the generation call
(`Except.error` when it throws, `Except.ok raw` for the parsed raw idiom
list) and `setOk` is whether `doc_ref.set` succeeds (a failed set writes
nothing).  On any failure the `except` branch returns the empty list and
leaves the store untouched. -/
def get_or_create_daily_idioms (gen : Except String (List IDict)) (setOk : Bool)
    (st : IStore) (date : String) : List IDict × IStore :=
  match lookupDoc st date with
  | some rawIdioms => (clean_idiom_list rawIdioms, st)
  | none =>
    match gen with
    | Except.error _ => ([], st)
    | Except.ok raw =>
      if setOk then
        (clean_idiom_list raw, setDoc st date (clean_idiom_list raw))
      else ([], st)

/-! ## Helper lemmas -/

theorem subperm_nodup {l₁ l₂ : List String} (h : List.Subperm l₁ l₂)
    (h₂ : l₂.Nodup) : l₁.Nodup := by
  obtain ⟨l, hp, hs⟩ := h
  exact hp.nodup_iff.mp (List.Nodup.sublist hs h₂)

theorem unusedOf_nodup (a u : List String) : (unusedOf a u).Nodup :=
  List.nodup_dedup _

theorem mem_unusedOf {w : String} {a u : List String} :
    w ∈ unusedOf a u ↔ w ∈ a ∧ w ∉ u := by
  simp [unusedOf, List.mem_dedup, List.mem_filter]

theorem format_word_data_keyed (l : List Dict) :
    format_word_data (l.map RawItem.keyed) = l := by
  induction l with
  | nil => rfl
  | cons d t ih =>
    simp only [format_word_data, List.map_cons, List.filterMap_cons] at ih ⊢
    rw [ih]

theorem format_word_data_seqs (ts : List (List String))
    (h : ∀ t ∈ ts, 6 ≤ t.length) :
    format_word_data (ts.map RawItem.seq) = ts.map seqToDict := by
  induction ts with
  | nil => rfl
  | cons t ts ih =>
    have ht : 6 ≤ t.length := h t (List.mem_cons_self t ts)
    have ih2 := ih (fun x hx => h x (List.mem_cons_of_mem t hx))
    simp only [format_word_data, List.map_cons, List.filterMap_cons, if_pos ht] at ih2 ⊢
    rw [ih2]

theorem tupleOfItem_length (d : Dict) : (tupleOfItem d).length = 6 := rfl

theorem lookupDoc_setDoc {α : Type} (st : Coll α) (d : String) (v : α) :
    lookupDoc (setDoc st d v) d = some v := by
  have hnone : (st.filter (fun p => p.1 != d)).find? (fun p => p.1 == d) = none := by
    rw [List.find?_eq_none]
    intro x hx
    have hx2 := List.of_mem_filter hx
    simp only [bne_iff_ne, ne_eq, decide_eq_true_eq] at hx2
    simp [hx2]
  simp [lookupDoc, setDoc, List.find?_append, hnone]

/-! ## C5: the normalizer -/

/-- C5: `_format_word_data` maps each sequence of length at least 6 to the
keyed form built from positions 0..5 (trailing positions ignored), passes
keyed mappings through unchanged, silently drops short sequences and other
shapes, processes elements independently, and returns at most as many
entries as it was given. -/
theorem format_word_data_spec (l l₂ : List RawItem) (f g : List String)
    (d : Dict) (hf : 6 ≤ f.length) (hg : g.length < 6) :
    format_word_data [RawItem.seq f] =
      [[("word", f.getD 0 ""), ("ipa", f.getD 1 ""), ("meaning", f.getD 2 ""),
        ("synonyms", f.getD 3 ""), ("antonyms", f.getD 4 ""),
        ("sentence", f.getD 5 "")]] ∧
    format_word_data [RawItem.keyed d] = [d] ∧
    format_word_data [RawItem.seq g] = [] ∧
    format_word_data [RawItem.other] = [] ∧
    format_word_data (l ++ l₂) = format_word_data l ++ format_word_data l₂ ∧
    (format_word_data l).length ≤ l.length := by
  refine ⟨?_, rfl, ?_, rfl, ?_, ?_⟩
  · simp [format_word_data, hf, seqToDict]
  · simp [format_word_data, Nat.not_le.mpr hg]
  · simp [format_word_data]
  · exact List.length_filterMap_le _ _

/-- Witness for C5 at concrete inputs: a 7-field sequence (trailing field
ignored), a keyed dict, a short sequence and an unrecognized shape. -/
theorem format_word_data_spec_witness :
    format_word_data [RawItem.seq ["x", "/x/", "def", "s1,s2", "a1,a2", "sent", "extra"]] =
      [[("word", ["x", "/x/", "def", "s1,s2", "a1,a2", "sent", "extra"].getD 0 ""),
        ("ipa", ["x", "/x/", "def", "s1,s2", "a1,a2", "sent", "extra"].getD 1 ""),
        ("meaning", ["x", "/x/", "def", "s1,s2", "a1,a2", "sent", "extra"].getD 2 ""),
        ("synonyms", ["x", "/x/", "def", "s1,s2", "a1,a2", "sent", "extra"].getD 3 ""),
        ("antonyms", ["x", "/x/", "def", "s1,s2", "a1,a2", "sent", "extra"].getD 4 ""),
        ("sentence", ["x", "/x/", "def", "s1,s2", "a1,a2", "sent", "extra"].getD 5 "")]] ∧
    format_word_data [RawItem.keyed [("word", "y")]] = [[("word", "y")]] ∧
    format_word_data [RawItem.seq ["too", "short"]] = [] ∧
    format_word_data [RawItem.other] = [] ∧
    format_word_data ([RawItem.other] ++ [RawItem.keyed []]) =
      format_word_data [RawItem.other] ++ format_word_data [RawItem.keyed []] ∧
    (format_word_data [RawItem.other]).length ≤ [RawItem.other].length :=
  format_word_data_spec [RawItem.other] [RawItem.keyed []]
    ["x", "/x/", "def", "s1,s2", "a1,a2", "sent", "extra"] ["too", "short"]
    [("word", "y")] (by decide) (by decide)

/-! ## C6: vocab-batch fallback on generation failure -/

/-- C6: when the generation call throws, `get_llm_vocab_batch` does not
propagate the exception: it returns exactly one placeholder tuple
`(word, "N/A", "Error loading data from AI.", "N/A", "N/A", "N/A")` per
requested word. -/
theorem get_llm_vocab_batch_error (e : String) (words : List String)
    (h : words ≠ []) :
    get_llm_vocab_batch (Except.error e) words =
      words.map (fun w => [w, "N/A", "Error loading data from AI.", "N/A", "N/A", "N/A"]) ∧
    (get_llm_vocab_batch (Except.error e) words).length = words.length := by
  refine ⟨rfl, ?_⟩
  simp [get_llm_vocab_batch]

/-- Witness for C6 at a concrete non-empty word list. -/
theorem get_llm_vocab_batch_error_witness :
    get_llm_vocab_batch (Except.error "boom") ["alpha", "beta"] =
      ["alpha", "beta"].map
        (fun w => [w, "N/A", "Error loading data from AI.", "N/A", "N/A", "N/A"]) ∧
    (get_llm_vocab_batch (Except.error "boom") ["alpha", "beta"]).length =
      ["alpha", "beta"].length :=
  get_llm_vocab_batch_error "boom" ["alpha", "beta"] (by decide)

/-! ## C7: last-write-wins upsert -/

/-- C7: for every date and every pair of six-field payloads, saving the
first payload and then the second and reading the date back yields exactly
the second payload; no field survives from the first write. -/
theorem save_challenge_last_write_wins (st : Store) (d : String)
    (w1 w2 : List String) (wd1 wd2 : List Dict) (s1 f1 u1 s2 f2 u2 : String) :
    get_challenge_for_date
        (save_challenge (save_challenge st d w1 wd1 s1 f1 u1) d w2 wd2 s2 f2 u2) d
      = some ⟨d, w2, wd2.map RawItem.keyed, s2, f2, u2⟩ := by
  simp only [get_challenge_for_date, save_challenge]
  exact lookupDoc_setDoc _ d _

/-! ## C1-C3: daily word selection -/

/-- C1: when at least `WORDS_PER_DAY` source words are unused, selection
returns exactly `WORDS_PER_DAY` distinct words, each present in the source
list and absent from the used set, and the selection is not degraded. -/
theorem selectDailyWords_plenty (sample : List String → Nat → List String)
    (allWords usedWords : List String) (hs : SampleOK sample)
    (hnodup : allWords.Nodup)
    (h : WORDS_PER_DAY ≤ (unusedOf allWords usedWords).length) :
    (selectDailyWords sample allWords usedWords).1.length = WORDS_PER_DAY ∧
    (selectDailyWords sample allWords usedWords).1.Nodup ∧
    (∀ w ∈ (selectDailyWords sample allWords usedWords).1,
        w ∈ allWords ∧ w ∉ usedWords) ∧
    (selectDailyWords sample allWords usedWords).2 = false := by
  have hsel : selectDailyWords sample allWords usedWords
      = (sample (unusedOf allWords usedWords) WORDS_PER_DAY, false) := by
    simp [selectDailyWords, if_pos h]
  rw [hsel]
  refine ⟨hs.len _ _ h, ?_, ?_, rfl⟩
  · exact subperm_nodup (hs.subperm _ _ h) (unusedOf_nodup _ _)
  · intro w hw
    exact mem_unusedOf.mp ((hs.subperm _ _ h).subset hw)

/-- The sampler used in witnesses: take the first `k` elements. -/
def sampleTake (l : List String) (k : Nat) : List String :=
  l.take k

theorem sampleTake_ok : SampleOK sampleTake := by
  constructor
  · intro l k h
    simpa [sampleTake] using h
  · intro l k _
    exact (List.take_sublist k l).subperm

/-- Witness for C1: five-word source list, empty history. -/
theorem selectDailyWords_plenty_witness :
    (selectDailyWords sampleTake ["a", "b", "c", "d", "e"] []).1.length = WORDS_PER_DAY ∧
    (selectDailyWords sampleTake ["a", "b", "c", "d", "e"] []).1.Nodup ∧
    (∀ w ∈ (selectDailyWords sampleTake ["a", "b", "c", "d", "e"] []).1,
        w ∈ ["a", "b", "c", "d", "e"] ∧ w ∉ ([] : List String)) ∧
    (selectDailyWords sampleTake ["a", "b", "c", "d", "e"] []).2 = false :=
  selectDailyWords_plenty sampleTake ["a", "b", "c", "d", "e"] []
    sampleTake_ok (by decide) (by decide)

/-- C2: when some but fewer than `WORDS_PER_DAY` source words are unused,
selection returns exactly the unused set (a short batch) and is degraded. -/
theorem selectDailyWords_short (sample : List String → Nat → List String)
    (allWords usedWords : List String) (hs : SampleOK sample)
    (h1 : 0 < (unusedOf allWords usedWords).length)
    (h2 : (unusedOf allWords usedWords).length < WORDS_PER_DAY) :
    (selectDailyWords sample allWords usedWords).1.Perm
        (unusedOf allWords usedWords) ∧
    (∀ w, w ∈ (selectDailyWords sample allWords usedWords).1 ↔
        w ∈ allWords ∧ w ∉ usedWords) ∧
    (selectDailyWords sample allWords usedWords).1.length < WORDS_PER_DAY ∧
    (selectDailyWords sample allWords usedWords).2 = true := by
  have hsel : selectDailyWords sample allWords usedWords
      = (sample (unusedOf allWords usedWords) (unusedOf allWords usedWords).length,
         true) := by
    simp [selectDailyWords, if_neg (Nat.not_le.mpr h2), h1, h2]
  rw [hsel]
  have hperm : (sample (unusedOf allWords usedWords)
      (unusedOf allWords usedWords).length).Perm (unusedOf allWords usedWords) :=
    (hs.subperm _ _ (Nat.le_refl _)).perm_of_length_le
      (Nat.le_of_eq (hs.len _ _ (Nat.le_refl _)).symm)
  refine ⟨hperm, ?_, ?_, rfl⟩
  · intro w
    rw [hperm.mem_iff, mem_unusedOf]
  · rw [hs.len _ _ (Nat.le_refl _)]
    exact h2

/-- Witness for C2: three-word source list, empty history. -/
theorem selectDailyWords_short_witness :
    (selectDailyWords sampleTake ["a", "b", "c"] []).1.Perm (unusedOf ["a", "b", "c"] []) ∧
    (∀ w, w ∈ (selectDailyWords sampleTake ["a", "b", "c"] []).1 ↔
        w ∈ ["a", "b", "c"] ∧ w ∉ ([] : List String)) ∧
    (selectDailyWords sampleTake ["a", "b", "c"] []).1.length < WORDS_PER_DAY ∧
    (selectDailyWords sampleTake ["a", "b", "c"] []).2 = true :=
  selectDailyWords_short sampleTake ["a", "b", "c"] []
    sampleTake_ok (by decide) (by decide)

/-- C3: when every source word has been used (and the de-duplicated source
list has at least `WORDS_PER_DAY` words), selection resets: it returns
exactly `WORDS_PER_DAY` words drawn from the full source list, distinct
within the call, and is degraded. -/
theorem selectDailyWords_reset (sample : List String → Nat → List String)
    (allWords usedWords : List String) (hs : SampleOK sample)
    (hnodup : allWords.Nodup)
    (hempty : unusedOf allWords usedWords = [])
    (hcount : WORDS_PER_DAY ≤ allWords.length) :
    (selectDailyWords sample allWords usedWords).1.length = WORDS_PER_DAY ∧
    (selectDailyWords sample allWords usedWords).1.Nodup ∧
    (∀ w ∈ (selectDailyWords sample allWords usedWords).1, w ∈ allWords) ∧
    (selectDailyWords sample allWords usedWords).2 = true := by
  have hsel : selectDailyWords sample allWords usedWords
      = (sample allWords WORDS_PER_DAY, true) := by
    simp [selectDailyWords, hempty, WORDS_PER_DAY]
  rw [hsel]
  refine ⟨hs.len _ _ hcount, ?_, ?_, rfl⟩
  · exact subperm_nodup (hs.subperm _ _ hcount) hnodup
  · intro w hw
    exact (hs.subperm _ _ hcount).subset hw

/-- Witness for C3: five-word source list, history containing all of it. -/
theorem selectDailyWords_reset_witness :
    (selectDailyWords sampleTake ["a", "b", "c", "d", "e"]
        ["e", "d", "c", "b", "a"]).1.length = WORDS_PER_DAY ∧
    (selectDailyWords sampleTake ["a", "b", "c", "d", "e"]
        ["e", "d", "c", "b", "a"]).1.Nodup ∧
    (∀ w ∈ (selectDailyWords sampleTake ["a", "b", "c", "d", "e"]
        ["e", "d", "c", "b", "a"]).1, w ∈ ["a", "b", "c", "d", "e"]) ∧
    (selectDailyWords sampleTake ["a", "b", "c", "d", "e"]
        ["e", "d", "c", "b", "a"]).2 = true :=
  selectDailyWords_reset sampleTake ["a", "b", "c", "d", "e"]
    ["e", "d", "c", "b", "a"] sampleTake_ok (by decide) (by decide) (by decide)

/-! ## C4: `word_data` length vs `words` length -/

/-- C4 counterexample: with a generation call that returns a single response
item for five requested words, `get_today_challenge` returns and stores a
record with five `words` but only one `word_data` entry, so the claimed
length invariant fails on the code. -/
theorem word_data_length_cex :
    ((get_today_challenge sampleTake (Except.ok [[("word", "x")]])
        ["a", "b", "c", "d", "e"] [] "2026-01-01").1.map
      (fun r => (r.words.length, r.word_data.length))) = some (5, 1) ∧
    ((get_challenge_for_date
        (get_today_challenge sampleTake (Except.ok [[("word", "x")]])
          ["a", "b", "c", "d", "e"] [] "2026-01-01").2 "2026-01-01").map
      (fun c => (c.words.length, c.word_data.length))) = some (5, 1) ∧
    (5 : Nat) ≠ 1 := by
  refine ⟨by decide, by decide, by decide⟩

/-- C4 (amended): the populated `word_data` has exactly one entry per word
whenever the generation call throws (per-word fallback) or returns one
response item per requested word (an empty response also falls back to one
placeholder per word); and re-normalizing an already-keyed stored
`word_data`, as every subsequent update does, leaves it unchanged, hence
preserves the invariant.  When the generator returns a different number of
items than requested, the stored lengths differ. -/
theorem word_data_length_invariant (words : List String) (e : String)
    (wl : List Dict) (l : List Dict)
    (hwl : wl = [] ∨ wl.length = words.length) :
    (format_word_data
        ((get_llm_vocab_batch (Except.error e) words).map RawItem.seq)).length
      = words.length ∧
    (format_word_data
        ((get_llm_vocab_batch (Except.ok wl) words).map RawItem.seq)).length
      = words.length ∧
    format_word_data (l.map RawItem.keyed) = l := by
  have hfb : ∀ ws : List String,
      (format_word_data ((ws.map vocabPlaceholder).map RawItem.seq)).length
        = ws.length := by
    intro ws
    rw [format_word_data_seqs]
    · simp
    · intro t ht
      obtain ⟨w, _, rfl⟩ := List.mem_map.mp ht
      exact Nat.le_refl 6
  refine ⟨hfb words, ?_, format_word_data_keyed l⟩
  rcases hwl with hnil | hlen
  · subst hnil
    simpa [get_llm_vocab_batch] using hfb words
  · by_cases hnil2 : wl = []
    · subst hnil2
      simpa [get_llm_vocab_batch] using hfb words
    · have hne : (wl.map tupleOfItem).isEmpty = false := by
        simp [hnil2]
      have hbatch : get_llm_vocab_batch (Except.ok wl) words = wl.map tupleOfItem := by
        simp [get_llm_vocab_batch, hne]
      rw [hbatch, format_word_data_seqs]
      · simpa using hlen
      · intro t ht
        obtain ⟨d, _, rfl⟩ := List.mem_map.mp ht
        exact Nat.le_refl 6

/-- Witness for C4 (amended) at a concrete input: two words with a two-item
generator response, and a keyed list to re-normalize. -/
theorem word_data_length_invariant_witness :
    (format_word_data
        ((get_llm_vocab_batch (Except.error "boom") ["a", "b"]).map RawItem.seq)).length
      = ["a", "b"].length ∧
    (format_word_data
        ((get_llm_vocab_batch
            (Except.ok [[("word", "a")], [("word", "b")]]) ["a", "b"]).map
          RawItem.seq)).length
      = ["a", "b"].length ∧
    format_word_data ([[("word", "a")]].map RawItem.keyed) = [[("word", "a")]] :=
  word_data_length_invariant ["a", "b"] "boom" [[("word", "a")], [("word", "b")]]
    [[("word", "a")]] (Or.inr (by decide))

/-! ## C8: idempotence of get-today -/

/-- C8: a second `get_today_challenge` call on the same date against the
store left by the first call, with no intervening story submission and an
arbitrary second generator, returns the same words and `word_data` (the
whole response and store are unchanged): the second call reads the stored
record and performs no re-generation, and re-normalizing the already-keyed
stored `word_data` leaves it unchanged. -/
theorem get_today_challenge_idempotent (sample : List String → Nat → List String)
    (gen gen2 : Except String (List Dict)) (allWords : List String)
    (st : Store) (today : String) :
    get_today_challenge sample gen2 allWords
        (get_today_challenge sample gen allWords st today).2 today
      = get_today_challenge sample gen allWords st today ∧
    (∀ l : List Dict, format_word_data (l.map RawItem.keyed) = l) := by
  refine ⟨?_, format_word_data_keyed⟩
  cases hrec : get_challenge_for_date st today with
  | some r =>
    simp [get_today_challenge, hrec]
  | none =>
    cases hw : (selectDailyWords sample allWords (get_all_used_words st)).1.isEmpty with
    | true =>
      simp [get_today_challenge, hrec, hw]
    | false =>
      have hlook : get_challenge_for_date
          (save_challenge st today
            (selectDailyWords sample allWords (get_all_used_words st)).1
            (format_word_data
              ((get_llm_vocab_batch gen
                  (selectDailyWords sample allWords (get_all_used_words st)).1).map
                RawItem.seq)) "" "" "") today
          = some ⟨today,
              (selectDailyWords sample allWords (get_all_used_words st)).1,
              (format_word_data
                ((get_llm_vocab_batch gen
                    (selectDailyWords sample allWords (get_all_used_words st)).1).map
                  RawItem.seq)).map RawItem.keyed, "", "", ""⟩ := by
        simp only [get_challenge_for_date, save_challenge]
        exact lookupDoc_setDoc _ today _
      simp [get_today_challenge, hrec, hw, hlook, format_word_data_keyed]

/-! ## C9: idiom get-or-create failure atomicity -/

/-- C9: when no daily-idiom document exists for the date, a failure of the
generation step or of the save returns the empty list and leaves the store
untouched, so the document stays absent and no partial record is written;
when the document already exists, the call performs no write at all. -/
theorem get_or_create_daily_idioms_safe (e : String) (raw : List IDict)
    (gen : Except String (List IDict)) (setOk : Bool) (st : IStore) (date : String)
    (h : lookupDoc st date = none) :
    get_or_create_daily_idioms (Except.error e) setOk st date = ([], st) ∧
    get_or_create_daily_idioms (Except.ok raw) false st date = ([], st) ∧
    (∀ st2 : IStore, (lookupDoc st2 date).isSome →
        (get_or_create_daily_idioms gen setOk st2 date).2 = st2) := by
  refine ⟨?_, ?_, ?_⟩
  · simp [get_or_create_daily_idioms, h]
  · simp [get_or_create_daily_idioms, h]
  · intro st2 h2
    cases hl : lookupDoc st2 date with
    | none => rw [hl] at h2; simp at h2
    | some v => simp [get_or_create_daily_idioms, hl]

/-- Witness for C9: empty store, so the document is absent. -/
theorem get_or_create_daily_idioms_safe_witness :
    get_or_create_daily_idioms (Except.error "boom") true [] "2026-01-01" = ([], []) ∧
    get_or_create_daily_idioms (Except.ok [[("word", IVal.s "x")]]) false [] "2026-01-01"
      = ([], []) ∧
    (∀ st2 : IStore, (lookupDoc st2 "2026-01-01").isSome →
        (get_or_create_daily_idioms (Except.ok []) true st2 "2026-01-01").2 = st2) :=
  get_or_create_daily_idioms_safe "boom" [[("word", IVal.s "x")]]
    (Except.ok []) true [] "2026-01-01" (by decide)

/-! ## C10: review-word de-duplication -/

theorem dedupeByWord_none (l : List Dict) :
    ∀ (seen : List String) (d : Dict), d ∈ l → dictGet d "word" = none →
      dedupeByWord l seen = none := by
  induction l with
  | nil => intro _ _ hd; cases hd
  | cons x rest ih =>
    intro seen d hd hnone
    rcases List.mem_cons.mp hd with rfl | hmem
    · simp [dedupeByWord, hnone]
    · cases hx : dictGet x "word" with
      | none => simp [dedupeByWord, hx]
      | some w =>
        simp only [dedupeByWord, hx]
        by_cases hw : w ∈ seen
        · rw [if_pos hw]
          exact ih seen d hmem hnone
        · rw [if_neg hw, ih (w :: seen) d hmem hnone]
          rfl

theorem dedupeByWord_isSome (l : List Dict) :
    ∀ seen : List String, (∀ d ∈ l, (dictGet d "word").isSome) →
      (dedupeByWord l seen).isSome := by
  induction l with
  | nil => intro seen _; simp [dedupeByWord]
  | cons x rest ih =>
    intro seen h
    have hx := h x (List.mem_cons_self x rest)
    cases hx2 : dictGet x "word" with
    | none => rw [hx2] at hx; simp at hx
    | some w =>
      simp only [dedupeByWord, hx2]
      by_cases hw : w ∈ seen
      · rw [if_pos hw]
        exact ih seen (fun d hd => h d (List.mem_cons_of_mem x hd))
      · rw [if_neg hw]
        have hrest := ih (w :: seen) (fun d hd => h d (List.mem_cons_of_mem x hd))
        cases hres : dedupeByWord rest (w :: seen) with
        | none => rw [hres] at hrest; simp at hrest
        | some out => simp

theorem dedupeByWord_sublist (l : List Dict) :
    ∀ (seen : List String) (out : List Dict), dedupeByWord l seen = some out →
      out.Sublist l := by
  induction l with
  | nil =>
    intro seen out h
    simp only [dedupeByWord, Option.some_inj] at h
    subst h
    exact List.Sublist.refl []
  | cons x rest ih =>
    intro seen out h
    cases hx : dictGet x "word" with
    | none => simp [dedupeByWord, hx] at h
    | some w =>
      simp only [dedupeByWord, hx] at h
      by_cases hw : w ∈ seen
      · rw [if_pos hw] at h
        exact (ih seen out h).cons x
      · rw [if_neg hw] at h
        cases hres : dedupeByWord rest (w :: seen) with
        | none => rw [hres] at h; simp at h
        | some out' =>
          rw [hres] at h
          simp only [Option.map_some', Option.some_inj] at h
          subst h
          exact (ih _ out' hres).cons₂ x

theorem filterMap_word_cons (x : Dict) (out : List Dict) (w : String)
    (hx : dictGet x "word" = some w) :
    (x :: out).filterMap (fun d => dictGet d "word")
      = w :: out.filterMap (fun d => dictGet d "word") := by
  simp [List.filterMap_cons, hx]

theorem dedupeByWord_words (l : List Dict) :
    ∀ (seen : List String) (out : List Dict), dedupeByWord l seen = some out →
      (∀ d ∈ out, ∃ w, dictGet d "word" = some w ∧ w ∉ seen) ∧
      (out.filterMap (fun d => dictGet d "word")).Nodup := by
  induction l with
  | nil =>
    intro seen out h
    simp only [dedupeByWord, Option.some_inj] at h
    subst h
    simp
  | cons x rest ih =>
    intro seen out h
    cases hx : dictGet x "word" with
    | none => simp [dedupeByWord, hx] at h
    | some w =>
      simp only [dedupeByWord, hx] at h
      by_cases hw : w ∈ seen
      · rw [if_pos hw] at h
        exact ih seen out h
      · rw [if_neg hw] at h
        cases hres : dedupeByWord rest (w :: seen) with
        | none => rw [hres] at h; simp at h
        | some out' =>
          rw [hres] at h
          simp only [Option.map_some', Option.some_inj] at h
          subst h
          obtain ⟨hmem', hnodup'⟩ := ih (w :: seen) out' hres
          constructor
          · intro d hd
            rcases List.mem_cons.mp hd with rfl | hd'
            · exact ⟨w, hx, hw⟩
            · obtain ⟨w', hw', hw'seen⟩ := hmem' d hd'
              exact ⟨w', hw', fun hc => hw'seen (List.mem_cons_of_mem _ hc)⟩
          · rw [filterMap_word_cons x out' w hx, List.nodup_cons]
            refine ⟨?_, hnodup'⟩
            intro hc
            obtain ⟨d, hd, hdw⟩ := List.mem_filterMap.mp hc
            obtain ⟨w', hw', hw'seen⟩ := hmem' d hd
            rw [hw'] at hdw
            rw [Option.some_inj.mp hdw] at hw'seen
            exact hw'seen (List.mem_cons_self w seen)

theorem dedupeByWord_covers (l : List Dict) :
    ∀ (seen : List String) (out : List Dict), dedupeByWord l seen = some out →
      ∀ d ∈ l, ∀ w, dictGet d "word" = some w →
        w ∈ seen ∨ w ∈ out.filterMap (fun d => dictGet d "word") := by
  induction l with
  | nil => intro seen out _ d hd; cases hd
  | cons x rest ih =>
    intro seen out h d hd w hdw
    cases hx : dictGet x "word" with
    | none => simp [dedupeByWord, hx] at h
    | some wx =>
      simp only [dedupeByWord, hx] at h
      by_cases hw : wx ∈ seen
      · rw [if_pos hw] at h
        rcases List.mem_cons.mp hd with rfl | hd'
        · rw [hx] at hdw
          exact Or.inl (Option.some_inj.mp hdw ▸ hw)
        · exact ih seen out h d hd' w hdw
      · rw [if_neg hw] at h
        cases hres : dedupeByWord rest (wx :: seen) with
        | none => rw [hres] at h; simp at h
        | some out' =>
          rw [hres] at h
          simp only [Option.map_some', Option.some_inj] at h
          subst h
          rw [filterMap_word_cons x out' wx hx]
          rcases List.mem_cons.mp hd with rfl | hd'
          · rw [hx] at hdw
            exact Or.inr (Option.some_inj.mp hdw ▸ List.mem_cons_self wx _)
          · rcases ih (wx :: seen) out' hres d hd' w hdw with hseen | hout
            · rcases List.mem_cons.mp hseen with rfl | hseen'
              · exact Or.inr (List.mem_cons_self w _)
              · exact Or.inl hseen'
            · exact Or.inr (List.mem_cons_of_mem _ hout)

theorem dedupeByWord_first (l : List Dict) :
    ∀ (seen : List String) (out : List Dict), dedupeByWord l seen = some out →
      ∀ d2 ∈ out, ∃ pre post, l = pre ++ d2 :: post ∧
        ∀ x ∈ pre, dictGet x "word" ≠ dictGet d2 "word" := by
  induction l with
  | nil =>
    intro seen out h d2 hd2
    simp only [dedupeByWord, Option.some_inj] at h
    subst h
    cases hd2
  | cons x rest ih =>
    intro seen out h d2 hd2
    cases hx : dictGet x "word" with
    | none => simp [dedupeByWord, hx] at h
    | some w =>
      simp only [dedupeByWord, hx] at h
      by_cases hw : w ∈ seen
      · rw [if_pos hw] at h
        obtain ⟨pre, post, hsplit, hpre⟩ := ih seen out h d2 hd2
        obtain ⟨w2, hw2, hw2seen⟩ := (dedupeByWord_words rest seen out h).1 d2 hd2
        refine ⟨x :: pre, post, by rw [hsplit]; rfl, ?_⟩
        intro y hy
        rcases List.mem_cons.mp hy with rfl | hy'
        · rw [hx, hw2]
          intro hc
          exact hw2seen (Option.some_inj.mp hc ▸ hw)
        · exact hpre y hy'
      · rw [if_neg hw] at h
        cases hres : dedupeByWord rest (w :: seen) with
        | none => rw [hres] at h; simp at h
        | some out' =>
          rw [hres] at h
          simp only [Option.map_some', Option.some_inj] at h
          subst h
          rcases List.mem_cons.mp hd2 with rfl | hd2'
          · exact ⟨[], rest, rfl, fun y hy => absurd hy (List.not_mem_nil y)⟩
          · obtain ⟨pre, post, hsplit, hpre⟩ := ih (w :: seen) out' hres d2 hd2'
            obtain ⟨w2, hw2, hw2seen⟩ :=
              (dedupeByWord_words rest (w :: seen) out' hres).1 d2 hd2'
            refine ⟨x :: pre, post, by rw [hsplit]; rfl, ?_⟩
            intro y hy
            rcases List.mem_cons.mp hy with rfl | hy'
            · rw [hx, hw2]
              intro hc
              exact hw2seen (Option.some_inj.mp hc ▸ List.mem_cons_self w seen)
            · exact hpre y hy'

/-- C10: when every formatted `word_data` entry of the stored history has a
"word" key, `get_review_words` succeeds and returns (a shuffle of) a list
de-duplicated by word, keeping the first-encountered entry per word: the
result is a sublist of the concatenated history with pairwise-distinct
words, covering every word, and each kept entry is the first of its word.
Entries produced by the normalizer from positional encodings always carry
the "word" key, while any entry lacking it makes the traversal fail. -/
theorem get_review_words_spec (shuffle : List Dict → List Dict) (st : Store)
    (h : ∀ d ∈ reviewSource st, (dictGet d "word").isSome) :
    (∃ out, dedupeByWord (reviewSource st) [] = some out ∧
      get_review_words shuffle st = some (shuffle out) ∧
      out.Sublist (reviewSource st) ∧
      (out.filterMap (fun d => dictGet d "word")).Nodup ∧
      (∀ d ∈ reviewSource st, ∀ w, dictGet d "word" = some w →
          w ∈ out.filterMap (fun d => dictGet d "word")) ∧
      (∀ d2 ∈ out, ∃ pre post, reviewSource st = pre ++ d2 :: post ∧
          ∀ x ∈ pre, dictGet x "word" ≠ dictGet d2 "word")) ∧
    (∀ f : List String, (dictGet (seqToDict f) "word").isSome) ∧
    (∀ (l : List Dict) (seen : List String) (d : Dict), d ∈ l →
        dictGet d "word" = none → dedupeByWord l seen = none) := by
  refine ⟨?_, ?_, ?_⟩
  · have hsome := dedupeByWord_isSome (reviewSource st) [] h
    cases hout : dedupeByWord (reviewSource st) [] with
    | none => rw [hout] at hsome; simp at hsome
    | some out =>
      refine ⟨out, rfl, ?_, dedupeByWord_sublist _ _ _ hout,
        (dedupeByWord_words _ _ _ hout).2, ?_, dedupeByWord_first _ _ _ hout⟩
      · simp [get_review_words, hout]
      · intro d hd w hw
        rcases dedupeByWord_covers _ _ _ hout d hd w hw with hseen | hres
        · exact absurd hseen (List.not_mem_nil w)
        · exact hres
  · intro f
    simp [dictGet, seqToDict]
  · exact fun l seen d hd hn => dedupeByWord_none l seen d hd hn

/-- A concrete two-day store for the C10 witness; the word "b" appears in
both days, so the second occurrence is de-duplicated away. -/
def reviewStoreW : Store :=
  [("2026-01-02",
    ⟨"2026-01-02", ["b", "c"],
     [RawItem.keyed [("word", "b")], RawItem.seq ["c", "/c/", "m", "s", "an", "sen"],
      RawItem.other], "", "", ""⟩),
   ("2026-01-01",
    ⟨"2026-01-01", ["b"], [RawItem.keyed [("word", "b"), ("ipa", "x")]], "s", "f", "u"⟩)]

/-- Witness for C10 at the concrete store, with the identity shuffle. -/
theorem get_review_words_spec_witness :
    (∃ out, dedupeByWord (reviewSource reviewStoreW) [] = some out ∧
      get_review_words id reviewStoreW = some (id out) ∧
      out.Sublist (reviewSource reviewStoreW) ∧
      (out.filterMap (fun d => dictGet d "word")).Nodup ∧
      (∀ d ∈ reviewSource reviewStoreW, ∀ w, dictGet d "word" = some w →
          w ∈ out.filterMap (fun d => dictGet d "word")) ∧
      (∀ d2 ∈ out, ∃ pre post, reviewSource reviewStoreW = pre ++ d2 :: post ∧
          ∀ x ∈ pre, dictGet x "word" ≠ dictGet d2 "word")) ∧
    (∀ f : List String, (dictGet (seqToDict f) "word").isSome) ∧
    (∀ (l : List Dict) (seen : List String) (d : Dict), d ∈ l →
        dictGet d "word" = none → dedupeByWord l seen = none) :=
  get_review_words_spec id reviewStoreW (by
    have h2 : reviewSource reviewStoreW =
        [[("word", "b")], seqToDict ["c", "/c/", "m", "s", "an", "sen"],
         [("word", "b"), ("ipa", "x")]] := by
      unfold reviewSource get_all_challenges reviewStoreW
      rw [List.mergeSort_of_sorted (by decide)]
      rfl
    rw [h2]
    decide)

end FluentLeap
